import Mathlib

/-!
Shallow embedding of the gossip-mesh chat peer (`MessagingPeer` in
`src/src/App.tsx`) of the p2p-webrtc-test repository.

The class `MessagingPeer` owns:
  * `peerId : string` — derived from the username (or the bare seed id),
  * `connections : Map<string, DataConnection>` — open connections keyed by
    remote peer id (a JS `Map`, so iteration order is insertion order),
  * `conversation : ChatLine[]` — the replicated chat log,
  * `isLoading : bool`, `lastError : string | null`.

Event handlers mutate this state and produce observable effects: messages
sent over connections (`conn.send`), new outbound transport connection
attempts (`this.peer.connect`), and events emitted on the `EventEmitter`
(`this.emit('update')`).  We embed each handler as a pure function from the
state to a new state plus an effect record.  The nondeterministic
`randomId()` of `sendMessage` is passed in as an explicit argument.
-/

/-- Wire record `ChatLine = { id, sender, content }` from `App.tsx`. -/
structure ChatLine where
  id : String
  sender : String
  content : String
deriving DecidableEq, Repr

/-- Wire message union `Message = SeedsMessage | ChatMessage` from `App.tsx`:
`{type:'seeds', peerIds}` or `{type:'chat', lines}`. -/
inductive Message where
  | seeds (peerIds : List String)
  | chat (lines : List ChatLine)
deriving DecidableEq, Repr

/-- The constant `MessagingPeer.PeerIDSeed = '407d10227d90'`. -/
def PeerIDSeed : String := "407d10227d90"

/-- The mutable fields of one `MessagingPeer` instance.  `connections` keeps
only the keys of the JS `Map` (the remote peer ids of open connections), in
insertion order; the mapped `DataConnection` objects carry no further state
the protocol reads. -/
structure PeerState where
  peerId : String
  username : Option String
  connections : List String
  conversation : List ChatLine
  isLoading : Bool
  lastError : Option String
deriving DecidableEq, Repr

/-- JS `Map.set` on the key list: appends the key if absent, keeps the key
list unchanged if present (the value is overwritten in place). -/
def insertConn (conns : List String) (r : String) : List String :=
  if r ∈ conns then conns else conns ++ [r]

/-- Effects of one handler invocation: the successor state, the messages
sent (`conn.send`, tagged with the remote id of the connection they went
over), the outbound transport connection attempts initiated
(`this.peer.connect`), and the events emitted on the `EventEmitter`. -/
structure HandlerResult where
  state : PeerState
  sends : List (String × Message)
  attempts : List String
  emits : List String
deriving DecidableEq, Repr

/-- `private send(msg)` (`App.tsx` lines 144-148): delivers `msg` over every
connection currently in the map, i.e. to every open connection. -/
def send (s : PeerState) (m : Message) : List (String × Message) :=
  s.connections.map (fun c => (c, m))

/-- `private connectToPeer(peerId)` (`App.tsx` lines 84-98), reduced to the
transport attempts it initiates: none if the id is already in the
connection map or is the local id, otherwise one outbound attempt (whose
metadata advertises the current connection keys).  It mutates no field; the
nested `handleNewConnection` on the fresh outbound connection only re-runs
`connectToPeer` on the locally known ids (all already in the map, hence
no-ops) and registers handlers. -/
def connectToPeer (s : PeerState) (r : String) : List String :=
  if r ∈ s.connections ∨ r = s.peerId then [] else [r]

/-- Iterated `connectToPeer`, as in `peerIds.forEach(...)` /
`_.each(data.peerIds, ...)`: each call sees the same connection map, since
the map only changes on a later `open` event. -/
def connectToPeers (s : PeerState) (ids : List String) : List String :=
  (ids.map (connectToPeer s)).flatten

/-- Lodash `_.uniqBy(list, l => l.id)` kernel: keeps each element whose id
was not seen earlier. -/
def uniqByIdAux (seen : List String) : List ChatLine → List ChatLine
  | [] => []
  | l :: ls =>
    if l.id ∈ seen then uniqByIdAux seen ls
    else l :: uniqByIdAux (l.id :: seen) ls

/-- `_.uniqBy(this.conversation, l => l.id)`: first occurrence of each id is
kept, in order. -/
def uniqById (ls : List ChatLine) : List ChatLine :=
  uniqByIdAux [] ls

/-- The `conn.on('data', ...)` handler (`App.tsx` lines 107-120): a seeds
message triggers `connectToPeer` on each advertised id; a chat message
appends the lines and re-deduplicates by id; both emit `update`. -/
def onData (s : PeerState) (m : Message) : HandlerResult :=
  match m with
  | .seeds ids =>
    { state := s, sends := [], attempts := connectToPeers s ids,
      emits := ["update"] }
  | .chat lines =>
    { state := { s with conversation := uniqById (s.conversation ++ lines) },
      sends := [], attempts := [], emits := ["update"] }

/-- The `conn.on('open', ...)` handler (`App.tsx` lines 125-141) for a
connection whose remote id is `r`: insert `r` into the connection map, then
`send` a seeds message listing the (new) connection keys and a chat message
carrying the whole conversation.  `send` fans out over the whole map.  The
handler emits nothing. -/
def onOpen (s : PeerState) (r : String) : HandlerResult :=
  let conns := insertConn s.connections r
  let s' := { s with connections := conns }
  { state := s',
    sends := send s' (Message.seeds conns) ++ send s' (Message.chat s'.conversation),
    attempts := [], emits := [] }

/-- The `conn.on('close')` / `conn.on('error')` handlers (`App.tsx` lines
122-123): `this.connections.delete(conn.peer)`. -/
def connClosed (s : PeerState) (r : String) : PeerState :=
  { s with connections := s.connections.erase r }

/-- Entry of `private handleNewConnection(conn)` (`App.tsx` lines 100-105)
for an inbound connection from `r` carrying metadata peer list `meta`:
if `r` is already in the map the connection is ignored (no handlers
registered); otherwise each advertised id is fed to `connectToPeer` and the
connection's handlers are registered.  Returns whether the connection was
registered, and the attempts initiated. -/
def handleNewConnection (s : PeerState) (r : String) (meta : List String) :
    Bool × List String :=
  if r ∈ s.connections then (false, [])
  else (true, connectToPeers s meta)

/-- Transport-level registration error kinds surfaced by `peer.on('error')`:
`error.type === 'peer-unavailable'`, `error.type === 'unavailable-id'`, or
anything else (carrying its raw message). -/
inductive PeerErrorKind where
  | peerUnavailable
  | unavailableId
  | other (raw : String)
deriving DecidableEq, Repr

/-- The `peer.on('error', ...)` handler (`App.tsx` lines 49-63): clear
`isLoading`, classify the error into `lastError`, emit `update`.  No retry
of any kind is attempted. -/
def onPeerError (s : PeerState) (e : PeerErrorKind) : HandlerResult :=
  let msg := match e with
    | .peerUnavailable => "peer is unreachable"
    | .unavailableId => s.peerId ++ " is already taken"
    | .other raw => raw
  { state := { s with isLoading := false, lastError := some msg },
    sends := [], attempts := [], emits := ["update"] }

/-- The `peer.on('open', ...)` handler (`App.tsx` lines 72-81): clear
loading and error, emit `update`, then `connectToPeer(PeerIDSeed)`. -/
def onPeerOpen (s : PeerState) : HandlerResult :=
  let s' := { s with isLoading := false, lastError := none }
  { state := s', sends := [], attempts := connectToPeer s' PeerIDSeed,
    emits := ["update"] }

/-- `public sendMessage(msg)` (`App.tsx` lines 162-177).  The thrown
`Error('not ready yet')` is embedded as `Except.error`: the throw happens
before any mutation or send, so the error branch carries no successor state
and no effects.  `randomId()` is passed in as `newId`. -/
def sendMessage (s : PeerState) (newId : String) (msg : String) :
    Except String HandlerResult :=
  if s.isLoading then .error "not ready yet"
  else
    let line : ChatLine :=
      { id := newId, sender := s.username.getD "seed", content := msg }
    let s' := { s with conversation := s.conversation ++ [line] }
    .ok { state := s', sends := send s' (Message.chat [line]),
          attempts := [], emits := [] }

/-- Constructor state (`App.tsx` lines 40-47): loading, no error, empty
connection map and conversation.  The peer id is
`PeerIDSeed + '-' + kebabCase(username)` for a named peer and the bare
`PeerIDSeed` otherwise; the kebab-case slug computation is presentation
glue, so the derived id is taken as a parameter here. -/
def initState (peerId : String) (username : Option String) : PeerState :=
  { peerId := peerId, username := username, connections := [],
    conversation := [], isLoading := true, lastError := none }

/-!
Event-level model of one `MessagingPeer` driven by its transport.  A
connection on which handlers have been registered but whose `open` event
has not yet fired is "pending": the code keeps no data structure for these
(they live only as closures), so the mesh state tracks their remote ids in
`pending` explicitly; `connections.set` happens only when a pending
connection fires `open`.  The model is deliberately permissive about which
transport events can occur (e.g. it lets a dead pending attempt still fire
`open` later), which only strengthens any invariant proved over all event
sequences.
-/

/-- One `MessagingPeer` together with its initiated-but-not-open
connection attempts. -/
structure MeshState where
  core : PeerState
  pending : List String
deriving DecidableEq, Repr

/-- Transport events delivered to one `MessagingPeer`'s handlers:
registration `open` / `error` on the `Peer` object, an inbound connection
(with the initiator's metadata peer list), and per-connection `open` /
`data` / `close`-or-`error` events identified by the connection's remote
id; plus the public `sendMessage` call. -/
inductive Event where
  | peerOpen
  | peerError (e : PeerErrorKind)
  | inbound (r : String) (meta : List String)
  | connOpen (r : String)
  | connData (r : String) (m : Message)
  | connClose (r : String)
  | localSend (newId : String) (msg : String)
deriving DecidableEq, Repr

/-- Observable outcome of one event: the successor mesh state plus the
messages sent and events emitted while handling it. -/
structure StepOut where
  next : MeshState
  sends : List (String × Message)
  emits : List String
deriving DecidableEq, Repr

/-- One transport event processed by the corresponding handler of
`MessagingPeer`.  Outbound attempts initiated by a handler
(`this.peer.connect` inside `connectToPeer`) become pending connections;
a pending connection that fires `open` moves into the connection map and
triggers the gossip of `conn.on('open')`. -/
def stepFull (ms : MeshState) (e : Event) : StepOut :=
  match e with
  | .peerOpen =>
    let hr := onPeerOpen ms.core
    ⟨⟨hr.state, ms.pending ++ hr.attempts⟩, hr.sends, hr.emits⟩
  | .peerError k =>
    let hr := onPeerError ms.core k
    ⟨⟨hr.state, ms.pending⟩, hr.sends, hr.emits⟩
  | .inbound r meta =>
    match handleNewConnection ms.core r meta with
    | (false, _) => ⟨ms, [], []⟩
    | (true, att) => ⟨⟨ms.core, ms.pending ++ att ++ [r]⟩, [], []⟩
  | .connOpen r =>
    if r ∈ ms.pending then
      let hr := onOpen ms.core r
      ⟨⟨hr.state, ms.pending.erase r⟩, hr.sends, hr.emits⟩
    else ⟨ms, [], []⟩
  | .connData _ m =>
    let hr := onData ms.core m
    ⟨⟨hr.state, ms.pending ++ hr.attempts⟩, hr.sends, hr.emits⟩
  | .connClose r =>
    ⟨⟨connClosed ms.core r, ms.pending⟩, [], []⟩
  | .localSend newId msg =>
    match sendMessage ms.core newId msg with
    | .ok hr => ⟨⟨hr.state, ms.pending⟩, hr.sends, hr.emits⟩
    | .error _ => ⟨ms, [], []⟩

/-- State part of `stepFull`. -/
def step (ms : MeshState) (e : Event) : MeshState :=
  (stepFull ms e).next

/-- A whole event trace, folded through `step`. -/
def runMesh (ms : MeshState) (evs : List Event) : MeshState :=
  evs.foldl step ms

/-- Freshly constructed peer: constructor state, no pending attempts. -/
def initMesh (peerId : String) (username : Option String) : MeshState :=
  ⟨initState peerId username, []⟩

/-- Transport-level sanity of an event with respect to the local id `pid`:
an inbound connection's remote id is not `pid` itself.  The transport
registers every peer under a distinct id (a second registration of a live
id fails with `unavailable-id`), so no remote connection can carry the
local id.  All other events are unconstrained; in particular seeds
messages and metadata may freely mention `pid`. -/
def eventOk (pid : String) : Event → Bool
  | .inbound r _ => r != pid
  | _ => true

/-- Invariant of the mesh model: neither a pending attempt nor an open
connection targets the local peer id. -/
def NoSelf (ms : MeshState) : Prop :=
  ms.core.peerId ∉ ms.pending ∧ ms.core.peerId ∉ ms.core.connections

/-- Concrete fixture: a ready peer "p" with one open connection to "a" and
an empty chat log (fields: peerId, username, connections, conversation,
isLoading, lastError). -/
def sampleReady : PeerState := ⟨"p", none, ["a"], [], false, none⟩

/-- Concrete fixture: a ready named peer connected to the seed. -/
def sampleAlice : PeerState :=
  ⟨"407d10227d90-alice", some "Alice", ["407d10227d90"], [], false, none⟩

/-- Concrete fixture chat lines. -/
def lineA : ChatLine := ⟨"ida", "alice", "hello"⟩

/-- Concrete fixture chat line with a distinct id. -/
def lineB : ChatLine := ⟨"idb", "bob", "hi"⟩

/-- Concrete fixture: a ready peer whose log already holds `lineA`. -/
def sampleChat : PeerState := ⟨"p", none, ["a"], [lineA], false, none⟩

/-- Concrete fixture: a line reusing the id of `lineA` with other text. -/
def dupA : ChatLine := ⟨"ida", "x", "other"⟩

/-- Conversation after the fixture peer merges an incoming chat message. -/
def mergedConv (lines : List ChatLine) : List ChatLine :=
  (onData sampleChat (Message.chat lines)).state.conversation

/-- Concrete fixture: a mesh state with one pending attempt towards "b"
and no open connection. -/
def sampleMeshPending : MeshState := ⟨⟨"p", none, [], [], false, none⟩, ["b"]⟩

/-!
Lemmas about the lodash `uniqBy`-by-id kernel.
-/

/-- `uniqByIdAux` only depends on the membership of the seen set. -/
theorem uniqByIdAux_congr (xs : List ChatLine) :
    ∀ s₁ s₂ : List String, (∀ a, a ∈ s₁ ↔ a ∈ s₂) →
      uniqByIdAux s₁ xs = uniqByIdAux s₂ xs := by
  induction xs with
  | nil => intro s₁ s₂ _; rfl
  | cons l ls ih =>
    intro s₁ s₂ h
    by_cases hl : l.id ∈ s₁
    · simp only [uniqByIdAux, if_pos hl, if_pos ((h l.id).mp hl)]
      exact ih s₁ s₂ h
    · simp only [uniqByIdAux, if_neg hl, if_neg (fun hc => hl ((h l.id).mpr hc))]
      refine congrArg _ (ih _ _ ?_)
      intro a
      simp only [List.mem_cons, h a]

/-- Deduplication only drops elements: the result is a sublist, so the
relative order of the kept lines is the receipt order. -/
theorem uniqByIdAux_sublist (xs : List ChatLine) :
    ∀ s, List.Sublist (uniqByIdAux s xs) xs := by
  induction xs with
  | nil => intro s; simp [uniqByIdAux]
  | cons l ls ih =>
    intro s
    by_cases hl : l.id ∈ s
    · simp only [uniqByIdAux, if_pos hl]
      exact (ih s).cons l
    · simp only [uniqByIdAux, if_neg hl]
      exact (ih _).cons₂ l

/-- An id occurs in the deduplicated list exactly when it is not already
seen and occurs in the input. -/
theorem mem_id_uniqByIdAux (xs : List ChatLine) :
    ∀ (s : List String) (x : String),
      (x ∈ (uniqByIdAux s xs).map ChatLine.id) ↔
        (x ∉ s ∧ x ∈ xs.map ChatLine.id) := by
  induction xs with
  | nil => intro s x; simp [uniqByIdAux]
  | cons l ls ih =>
    intro s x
    by_cases hl : l.id ∈ s
    · simp only [uniqByIdAux, if_pos hl, List.map_cons, List.mem_cons, ih]
      constructor
      · rintro ⟨hn, hm⟩
        exact ⟨hn, Or.inr hm⟩
      · rintro ⟨hn, hm | hm⟩
        · exact absurd (hm ▸ hl) hn
        · exact ⟨hn, hm⟩
    · simp only [uniqByIdAux, if_neg hl, List.map_cons, List.mem_cons, ih]
      constructor
      · rintro (rfl | ⟨hn, hm⟩)
        · exact ⟨hl, Or.inl rfl⟩
        · exact ⟨fun hc => hn (Or.inr hc), Or.inr hm⟩
      · rintro ⟨hn, rfl | hm⟩
        · exact Or.inl rfl
        · by_cases hx : x = l.id
          · exact Or.inl hx
          · exact Or.inr ⟨by simp [List.mem_cons, hx, hn], hm⟩

/-- For an unseen id, the first line carrying it survives deduplication:
`find?` by that id agrees with the original list. -/
theorem find?_uniqByIdAux (xs : List ChatLine) :
    ∀ (s : List String) (x : String), x ∉ s →
      (uniqByIdAux s xs).find? (fun l => l.id == x) =
        xs.find? (fun l => l.id == x) := by
  induction xs with
  | nil => intro s x _; rfl
  | cons l ls ih =>
    intro s x hx
    by_cases hl : l.id ∈ s
    · have hne : (l.id == x) = false := by
        simp only [beq_eq_false_iff_ne, ne_eq]
        intro hc
        exact hx (hc ▸ hl)
      simp only [uniqByIdAux, if_pos hl, List.find?_cons, hne]
      exact ih s x hx
    · by_cases heq : l.id = x
      · subst heq
        simp [uniqByIdAux, if_neg hl, List.find?_cons]
      · have hne : (l.id == x) = false := by
          simp only [beq_eq_false_iff_ne, ne_eq]; exact heq
        simp only [uniqByIdAux, if_neg hl, List.find?_cons, hne]
        refine ih _ x ?_
        simp only [List.mem_cons, not_or]
        exact ⟨fun hc => heq hc.symm, hx⟩

/-- The deduplicated list has pairwise distinct ids. -/
theorem nodup_id_uniqByIdAux (xs : List ChatLine) :
    ∀ s, ((uniqByIdAux s xs).map ChatLine.id).Nodup := by
  induction xs with
  | nil => intro s; simp [uniqByIdAux]
  | cons l ls ih =>
    intro s
    by_cases hl : l.id ∈ s
    · simp only [uniqByIdAux, if_pos hl]
      exact ih s
    · simp only [uniqByIdAux, if_neg hl, List.map_cons, List.nodup_cons]
      refine ⟨fun hc => ?_, ih _⟩
      have := (mem_id_uniqByIdAux ls _ l.id).mp hc
      exact this.1 (List.mem_cons_self _ _)

/-- Deduplicating an appended list: the prefix is deduplicated against the
initial seen set, the suffix additionally against all ids of the prefix. -/
theorem uniqByIdAux_append (xs ys : List ChatLine) :
    ∀ s, uniqByIdAux s (xs ++ ys) =
      uniqByIdAux s xs ++ uniqByIdAux (xs.map ChatLine.id ++ s) ys := by
  induction xs with
  | nil => intro s; simp [uniqByIdAux]
  | cons l ls ih =>
    intro s
    by_cases hl : l.id ∈ s
    · show uniqByIdAux s (l :: (ls ++ ys)) = _
      simp only [uniqByIdAux, if_pos hl, List.map_cons, List.cons_append]
      rw [ih s]
      congr 1
      apply uniqByIdAux_congr
      intro a
      simp only [List.mem_cons]
      constructor
      · exact Or.inr
      · rintro (rfl | h)
        · exact List.mem_append_right _ hl
        · exact h
    · show uniqByIdAux s (l :: (ls ++ ys)) = _
      simp only [uniqByIdAux, if_neg hl, List.map_cons, List.cons_append]
      rw [ih (l.id :: s)]
      congr 2
      apply uniqByIdAux_congr
      intro a
      simp only [List.mem_cons, List.mem_append]
      tauto

/-- A list with pairwise distinct ids, none of them seen, deduplicates to
itself. -/
theorem uniqByIdAux_eq_self (xs : List ChatLine) :
    ∀ s, (xs.map ChatLine.id).Nodup → (∀ a ∈ xs.map ChatLine.id, a ∉ s) →
      uniqByIdAux s xs = xs := by
  induction xs with
  | nil => intro s _ _; rfl
  | cons l ls ih =>
    intro s hnd hfr
    have hl : l.id ∉ s := hfr l.id (by simp)
    have hnd' : l.id ∉ List.map ChatLine.id ls ∧ (List.map ChatLine.id ls).Nodup :=
      List.nodup_cons.mp (by simpa only [List.map_cons] using hnd)
    simp only [uniqByIdAux, if_neg hl]
    refine congrArg _ (ih _ hnd'.2 ?_)
    intro a ha
    simp only [List.mem_cons, not_or]
    constructor
    · intro hc
      exact hnd'.1 (hc ▸ ha)
    · exact hfr a (List.mem_cons_of_mem _ ha)

/-- A list all of whose ids are already seen deduplicates to nothing. -/
theorem uniqByIdAux_eq_nil (ys : List ChatLine) :
    ∀ s, (∀ l ∈ ys, l.id ∈ s) → uniqByIdAux s ys = [] := by
  induction ys with
  | nil => intro s _; rfl
  | cons l ls ih =>
    intro s h
    simp only [uniqByIdAux, if_pos (h l (List.mem_cons_self _ _))]
    exact ih s (fun x hx => h x (List.mem_cons_of_mem _ hx))

/-!
Small helper lemmas about the embedded operations.
-/

/-- The inserted key is in the map afterwards. -/
theorem mem_insertConn_self (conns : List String) (r : String) :
    r ∈ insertConn conns r := by
  by_cases h : r ∈ conns <;> simp [insertConn, h]

/-- Keys of the map after `insertConn` are old keys or the inserted key. -/
theorem mem_insertConn (conns : List String) (r x : String)
    (h : x ∈ insertConn conns r) : x ∈ conns ∨ x = r := by
  by_cases hr : r ∈ conns
  · simp only [insertConn, if_pos hr] at h
    exact Or.inl h
  · simp only [insertConn, if_neg hr, List.mem_append, List.mem_singleton] at h
    exact h

/-- `connectToPeer` never initiates an attempt towards the local id. -/
theorem connectToPeer_ne_self (s : PeerState) (r x : String)
    (h : x ∈ connectToPeer s r) : x ≠ s.peerId := by
  unfold connectToPeer at h
  by_cases hg : r ∈ s.connections ∨ r = s.peerId
  · simp [hg] at h
  · simp only [if_neg hg, List.mem_singleton] at h
    subst h
    exact fun hc => hg (Or.inr hc)

/-- Iterated `connectToPeer` never initiates an attempt towards the local
id either. -/
theorem connectToPeers_ne_self (s : PeerState) (ids : List String) (x : String)
    (h : x ∈ connectToPeers s ids) : x ≠ s.peerId := by
  simp only [connectToPeers, List.mem_flatten, List.mem_map] at h
  obtain ⟨l, ⟨i, _, rfl⟩, hx⟩ := h
  exact connectToPeer_ne_self s i x hx

/-!
Claim theorems.
-/

/-- C2: `sendMessage` on a loading peer raises the not-ready error (the
`Except.error` branch models the throw, which happens before any mutation
or send, so it carries no successor state, no gossip and no chat-log
change), and it raises an error exactly when the peer is still loading. -/
theorem c2_sendMessage_not_ready (s : PeerState) (newId msg : String) :
    (s.isLoading = true → sendMessage s newId msg = Except.error "not ready yet") ∧
    ((∃ e, sendMessage s newId msg = Except.error e) ↔ s.isLoading = true) := by
  constructor
  · intro h
    simp [sendMessage, h]
  · constructor
    · rintro ⟨e, he⟩
      cases h : s.isLoading
      · simp [sendMessage, h] at he
      · rfl
    · intro h
      exact ⟨"not ready yet", by simp [sendMessage, h]⟩

/-- Witness for C2 at a freshly constructed (hence loading) peer. -/
theorem c2_witness :
    sendMessage (initState PeerIDSeed none) "id0" "hello" =
      Except.error "not ready yet" :=
  (c2_sendMessage_not_ready (initState PeerIDSeed none) "id0" "hello").1 rfl

/-- C3: `sendMessage` on a ready peer succeeds, appends exactly one new
line authored by the local participant (`sender` is the username, or
"seed" when none was given; `id` is the freshly generated id) to the chat
log, and sends a chat message carrying only that single line to every
currently open connection. -/
theorem c3_sendMessage_appends_and_gossips (s : PeerState) (newId msg : String)
    (h : s.isLoading = false) :
    ∃ hr : HandlerResult,
      sendMessage s newId msg = Except.ok hr ∧
      hr.state.conversation =
        s.conversation ++ [⟨newId, s.username.getD "seed", msg⟩] ∧
      hr.state.conversation.length = s.conversation.length + 1 ∧
      hr.state.connections = s.connections ∧
      hr.sends = s.connections.map
        (fun c => (c, Message.chat [⟨newId, s.username.getD "seed", msg⟩])) ∧
      (∀ c ∈ s.connections,
        (c, Message.chat [⟨newId, s.username.getD "seed", msg⟩]) ∈ hr.sends) ∧
      hr.emits = [] := by
  have heq : sendMessage s newId msg =
      Except.ok
        ⟨{ s with conversation :=
             s.conversation ++ [⟨newId, s.username.getD "seed", msg⟩] },
         send { s with conversation :=
             s.conversation ++ [⟨newId, s.username.getD "seed", msg⟩] }
           (Message.chat [⟨newId, s.username.getD "seed", msg⟩]),
         [], []⟩ := by
    simp [sendMessage, h]
  refine ⟨_, heq, rfl, by simp, rfl, rfl, ?_, rfl⟩
  intro c hc
  simp only [send, List.mem_map]
  exact ⟨c, hc, rfl⟩

/-- Witness for C3: a ready peer with one open connection. -/
theorem c3_witness :
    ∃ hr : HandlerResult,
      sendMessage sampleAlice "id1" "hi" = Except.ok hr ∧
      hr.state.conversation = [⟨"id1", "Alice", "hi"⟩] ∧
      ("407d10227d90", Message.chat [⟨"id1", "Alice", "hi"⟩]) ∈ hr.sends := by
  obtain ⟨hr, heq, hconv, _, _, _, hmem, _⟩ :=
    c3_sendMessage_appends_and_gossips sampleAlice "id1" "hi" rfl
  exact ⟨hr, heq, by simpa [sampleAlice] using hconv,
    hmem "407d10227d90" (by simp [sampleAlice])⟩

/-- C7: a connect request towards an identity already present in the
connection map is a complete no-op: `connectToPeer` initiates no transport
attempt, and an inbound connection from such an identity is ignored — the
mesh state is unchanged and nothing is sent or emitted. -/
theorem c7_connect_idempotent (ms : MeshState) (r : String) (meta : List String)
    (h : r ∈ ms.core.connections) :
    connectToPeer ms.core r = [] ∧
    stepFull ms (Event.inbound r meta) = ⟨ms, [], []⟩ := by
  constructor
  · simp [connectToPeer, h]
  · simp [stepFull, handleNewConnection, h]

/-- Witness for C7 at a peer already connected to "a". -/
theorem c7_witness :
    stepFull ⟨sampleReady, []⟩ (Event.inbound "a" ["p", "b"]) =
      ⟨⟨sampleReady, []⟩, [], []⟩ :=
  (c7_connect_idempotent ⟨sampleReady, []⟩ "a" ["p", "b"]
    (by simp [sampleReady])).2

/-- C8: every transport-registration error clears `isLoading`, emits
`update`, initiates no retry (no attempts, no sends), leaves connections
and conversation alone, and sets the error text by classification:
"peer is unreachable" for an unreachable peer, "<local id> is already
taken" for a claimed identity, and the raw message otherwise. -/
theorem c8_peer_error_classification (s : PeerState) (e : PeerErrorKind) :
    (onPeerError s e).state.isLoading = false ∧
    (onPeerError s e).emits = ["update"] ∧
    (onPeerError s e).attempts = [] ∧
    (onPeerError s e).sends = [] ∧
    (onPeerError s e).state.connections = s.connections ∧
    (onPeerError s e).state.conversation = s.conversation ∧
    (onPeerError s e).state.lastError = some (match e with
      | .peerUnavailable => "peer is unreachable"
      | .unavailableId => s.peerId ++ " is already taken"
      | .other raw => raw) := by
  cases e <;> simp [onPeerError]

/-- C1 (amended): when a connection to remote `r` becomes ready, the peer
first inserts `r` into the connection map and then sends — to every
currently open connection, the new peer included, since `send` fans out
over the whole map — a seeds message listing all currently known peer
identities and a chat message carrying the entire current chat log; the
handler emits no `update` notification and opens no further connection. -/
theorem c1_open_gossip (s : PeerState) (r : String) :
    (onOpen s r).state.connections = insertConn s.connections r ∧
    r ∈ (onOpen s r).state.connections ∧
    (onOpen s r).state.conversation = s.conversation ∧
    (onOpen s r).sends =
      send (onOpen s r).state (Message.seeds (insertConn s.connections r)) ++
        send (onOpen s r).state (Message.chat s.conversation) ∧
    (∀ c ∈ insertConn s.connections r,
      (c, Message.seeds (insertConn s.connections r)) ∈ (onOpen s r).sends ∧
        (c, Message.chat s.conversation) ∈ (onOpen s r).sends) ∧
    (∀ t ∈ (onOpen s r).sends, t.1 ∈ insertConn s.connections r) ∧
    (onOpen s r).emits = [] ∧
    (onOpen s r).attempts = [] := by
  refine ⟨rfl, mem_insertConn_self _ _, rfl, rfl, ?_, ?_, rfl, rfl⟩
  · intro c hc
    constructor
    · simp only [onOpen, send, List.mem_append, List.mem_map]
      exact Or.inl ⟨c, hc, rfl⟩
    · simp only [onOpen, send, List.mem_append, List.mem_map]
      exact Or.inr ⟨c, hc, rfl⟩
  · intro t ht
    simp only [onOpen, send, List.mem_append, List.mem_map] at ht
    rcases ht with ⟨c, hc, rfl⟩ | ⟨c, hc, rfl⟩ <;> exact hc

/-- Witness for C1 (amended) at the fixture peer: the pre-existing
connection "a" also receives both gossip messages when "b" opens. -/
theorem c1_witness :
    ("a", Message.seeds (insertConn sampleReady.connections "b"))
        ∈ (onOpen sampleReady "b").sends ∧
    ("a", Message.chat sampleReady.conversation)
        ∈ (onOpen sampleReady "b").sends ∧
    (onOpen sampleReady "b").emits = [] :=
  ⟨((c1_open_gossip sampleReady "b").2.2.2.2.1 "a" (by simp [sampleReady, insertConn])).1,
   ((c1_open_gossip sampleReady "b").2.2.2.2.1 "a" (by simp [sampleReady, insertConn])).2,
   (c1_open_gossip sampleReady "b").2.2.2.2.2.2.1⟩

/-- Counterexample to C1 as stated: at the fixture peer (one pre-existing
open connection "a", empty log), when the connection to "b" becomes ready
the gossip is NOT restricted to the single new peer — "a" receives the
seeds message too — and no `update` is emitted. -/
theorem c1_counterexample :
    ¬ ((∀ t ∈ (onOpen sampleReady "b").sends, t.1 = "b") ∧
        "update" ∈ (onOpen sampleReady "b").emits) ∧
    ("a", Message.seeds ["a", "b"]) ∈ (onOpen sampleReady "b").sends ∧
    (onOpen sampleReady "b").emits = [] := by
  refine ⟨?_, ?_, rfl⟩
  · rintro ⟨hall, hupd⟩
    have := hall ("a", Message.seeds ["a", "b"]) (by decide)
    simp at this
  · decide

/-- C9: the seeds message gossiped when the connection to `r` opens is
built after `r` was inserted into the connection map, so the copy
delivered to `r` itself advertises `r` in its peer-id list; indeed every
seeds message this handler addresses to `r` lists `r`. -/
theorem c9_seeds_includes_recipient (s : PeerState) (r : String) :
    (r, Message.seeds (insertConn s.connections r)) ∈ (onOpen s r).sends ∧
    r ∈ insertConn s.connections r ∧
    (∀ ids, (r, Message.seeds ids) ∈ (onOpen s r).sends → r ∈ ids) := by
  refine ⟨?_, mem_insertConn_self _ _, ?_⟩
  · simp only [onOpen, send, List.mem_append, List.mem_map]
    exact Or.inl ⟨r, mem_insertConn_self _ _, rfl⟩
  · intro ids hmem
    simp only [onOpen, send, List.mem_append, List.mem_map] at hmem
    rcases hmem with ⟨c, _, heq⟩ | ⟨c, _, heq⟩
    · have h2 : Message.seeds (insertConn s.connections r) = Message.seeds ids :=
        congrArg Prod.snd heq
      have h3 : insertConn s.connections r = ids := by injection h2
      exact h3 ▸ mem_insertConn_self _ _
    · exact absurd (congrArg Prod.snd heq) (by simp)

/-- Witness for C9 at the fixture peer. -/
theorem c9_witness :
    ("b", Message.seeds (insertConn sampleReady.connections "b"))
      ∈ (onOpen sampleReady "b").sends ∧
    "b" ∈ insertConn sampleReady.connections "b" :=
  ⟨(c9_seeds_includes_recipient sampleReady "b").1,
   (c9_seeds_includes_recipient sampleReady "b").2.1⟩

/-- C10: the duplicate-attempt guard inspects only the map of OPEN
connections, so an identity with a pending (initiated, not yet open)
attempt is not covered: a further connect request towards it — here
delivered through a seeds message — initiates another transport attempt
instead of being a no-op. -/
theorem c10_pending_not_guarded (ms : MeshState) (q r : String)
    (hp : r ∈ ms.pending) (hc : r ∉ ms.core.connections)
    (hs : r ≠ ms.core.peerId) :
    connectToPeer ms.core r = [r] ∧
    (stepFull ms (Event.connData q (Message.seeds [r]))).next.pending
      = ms.pending ++ [r] ∧
    (stepFull ms (Event.connData q (Message.seeds [r]))).next.pending.count r
      = ms.pending.count r + 1 ∧
    1 ≤ ms.pending.count r := by
  have hcp : connectToPeer ms.core r = [r] := by
    simp [connectToPeer, hc, hs]
  refine ⟨hcp, ?_, ?_, ?_⟩
  · simp [stepFull, onData, connectToPeers, hcp]
  · simp [stepFull, onData, connectToPeers, hcp, List.count_append]
  · exact List.count_pos_iff.mpr hp

/-- Witness for C10 at a mesh state with a pending attempt towards "b". -/
theorem c10_witness :
    (stepFull sampleMeshPending
        (Event.connData "a" (Message.seeds ["b"]))).next.pending = ["b", "b"] ∧
    1 ≤ sampleMeshPending.pending.count "b" :=
  ⟨(c10_pending_not_guarded sampleMeshPending "a" "b" (by decide) (by decide)
      (by decide)).2.1,
   (c10_pending_not_guarded sampleMeshPending "a" "b" (by decide) (by decide)
      (by decide)).2.2.2⟩

/-- C4: receiving a chat message appends its lines to the log in received
order and deduplicates by id keeping firsts: the resulting log is the
appended log minus later duplicates — a sublist of `old ++ lines` (so the
order reflects receipt order), carrying exactly the ids of `old ++ lines`,
and for each id the first line carrying it is the one kept (`find?` by
that id agrees with the appended log).  The handler then emits `update`
and neither sends nor connects. -/
theorem c4_chat_merge (s : PeerState) (lines : List ChatLine) :
    (onData s (Message.chat lines)).state.conversation
        = uniqById (s.conversation ++ lines) ∧
    List.Sublist (onData s (Message.chat lines)).state.conversation
        (s.conversation ++ lines) ∧
    (∀ x, x ∈ ((onData s (Message.chat lines)).state.conversation.map ChatLine.id)
        ↔ x ∈ ((s.conversation ++ lines).map ChatLine.id)) ∧
    (∀ x, ((onData s (Message.chat lines)).state.conversation.find?
            (fun l => l.id == x))
        = ((s.conversation ++ lines).find? (fun l => l.id == x))) ∧
    (onData s (Message.chat lines)).emits = ["update"] ∧
    (onData s (Message.chat lines)).sends = [] ∧
    (onData s (Message.chat lines)).attempts = [] ∧
    (onData s (Message.chat lines)).state.connections = s.connections := by
  refine ⟨rfl, ?_, ?_, ?_, rfl, rfl, rfl, rfl⟩
  · exact uniqByIdAux_sublist _ []
  · intro x
    simpa using mem_id_uniqByIdAux (s.conversation ++ lines) [] x
  · intro x
    exact find?_uniqByIdAux (s.conversation ++ lines) [] x (by simp)

/-- Witness for C4: merging a duplicate of `lineA` plus the new `lineB`
into the fixture log keeps the original `lineA` and appends `lineB`. -/
theorem c4_witness :
    (mergedConv [dupA, lineB]).find? (fun l => l.id == "ida") = some lineA ∧
    "idb" ∈ (mergedConv [dupA, lineB]).map ChatLine.id := by
  constructor
  · have h := (c4_chat_merge sampleChat [dupA, lineB]).2.2.2.1 "ida"
    rw [mergedConv, h]
    decide
  · have h := (c4_chat_merge sampleChat [dupA, lineB]).2.2.1 "idb"
    rw [mergedConv, h]
    decide

/-- C5: the chat log never holds two lines with the same id — a received
chat merge always leaves pairwise-distinct ids; merging a single line
whose id is already present leaves the log literally unchanged (hence the
distinct-id count unchanged); and a local `sendMessage` with a fresh id
preserves distinctness of the ids. -/
theorem c5_no_duplicate_ids (s : PeerState) (lines : List ChatLine)
    (l : ChatLine) (newId msg : String) :
    ((onData s (Message.chat lines)).state.conversation.map ChatLine.id).Nodup ∧
    ((s.conversation.map ChatLine.id).Nodup →
      l.id ∈ s.conversation.map ChatLine.id →
      (onData s (Message.chat [l])).state.conversation = s.conversation) ∧
    (s.isLoading = false →
      (s.conversation.map ChatLine.id).Nodup →
      newId ∉ s.conversation.map ChatLine.id →
      ∀ hr, sendMessage s newId msg = Except.ok hr →
        (hr.state.conversation.map ChatLine.id).Nodup) := by
  refine ⟨nodup_id_uniqByIdAux _ [], ?_, ?_⟩
  · intro hnd hmem
    show uniqById (s.conversation ++ [l]) = s.conversation
    rw [uniqById, uniqByIdAux_append]
    rw [uniqByIdAux_eq_self s.conversation [] hnd (by simp)]
    rw [uniqByIdAux_eq_nil [l] _ (by simpa using hmem)]
    exact List.append_nil _
  · intro hload hnd hfresh hr heq
    have h : sendMessage s newId msg =
        Except.ok
          ⟨{ s with conversation :=
               s.conversation ++ [⟨newId, s.username.getD "seed", msg⟩] },
           send { s with conversation :=
               s.conversation ++ [⟨newId, s.username.getD "seed", msg⟩] }
             (Message.chat [⟨newId, s.username.getD "seed", msg⟩]),
           [], []⟩ := by
      simp [sendMessage, hload]
    rw [h] at heq
    obtain rfl : _ = hr := by injection heq
    simp only [List.map_append, List.map_cons, List.map_nil]
    rw [List.nodup_append]
    refine ⟨hnd, List.nodup_singleton _, ?_⟩
    intro a ha hb
    simp only [List.mem_singleton] at hb
    exact hfresh (hb ▸ ha)

/-- Witness for C5: merging a duplicate of `lineA` into the fixture log
leaves the log unchanged. -/
theorem c5_witness :
    mergedConv [dupA] = sampleChat.conversation :=
  (c5_no_duplicate_ids sampleChat [] dupA "n" "m").2.1
    (by decide) (by decide)

/-- The local peer id is never reassigned by any handler. -/
theorem step_peerId (ms : MeshState) (e : Event) :
    (step ms e).core.peerId = ms.core.peerId := by
  cases e with
  | peerOpen => rfl
  | peerError k => rfl
  | inbound r meta =>
    simp only [step, stepFull]
    rcases h : handleNewConnection ms.core r meta with ⟨b, att⟩
    cases b <;> rfl
  | connOpen r =>
    simp only [step, stepFull]
    by_cases h : r ∈ ms.pending <;> simp [h, onOpen]
  | connData r m => cases m <;> rfl
  | connClose r => rfl
  | localSend newId msg =>
    simp only [step, stepFull]
    by_cases h : ms.core.isLoading <;> simp [sendMessage, h]

/-- One transport event preserves the no-self invariant, provided an
inbound connection's remote id is not the local id (the transport registers
each live peer under a distinct id, so it cannot deliver one). -/
theorem step_noSelf (ms : MeshState) (e : Event)
    (hInv : NoSelf ms) (hok : eventOk ms.core.peerId e = true) :
    NoSelf (step ms e) := by
  obtain ⟨hp, hc⟩ := hInv
  cases e with
  | peerOpen =>
    refine ⟨?_, hc⟩
    simp only [step, stepFull, onPeerOpen, List.mem_append]
    rintro (h | h)
    · exact hp h
    · exact connectToPeer_ne_self _ _ _ h rfl
  | peerError k => exact ⟨hp, hc⟩
  | inbound r meta =>
    have hr : r ≠ ms.core.peerId := by simpa [eventOk] using hok
    simp only [step, stepFull]
    rcases h : handleNewConnection ms.core r meta with ⟨b, att⟩
    have hatt : ∀ x ∈ att, x ≠ ms.core.peerId := by
      intro x hx
      rcases b with _ | _
      · unfold handleNewConnection at h
        split at h
        · cases h
          simp at hx
        · cases h
      · unfold handleNewConnection at h
        split at h
        · cases h
        · cases h
          exact connectToPeers_ne_self _ _ _ hx
    cases b
    · exact ⟨hp, hc⟩
    · refine ⟨?_, hc⟩
      simp only [List.mem_append]
      rintro ((h1 | h1) | h1)
      · exact hp h1
      · exact hatt _ h1 rfl
      · simp only [List.mem_singleton] at h1
        exact hr h1.symm
  | connOpen r =>
    simp only [step, stepFull]
    by_cases h : r ∈ ms.pending
    · have hrne : ms.core.peerId ≠ r := fun hc2 => hp (hc2 ▸ h)
      simp only [if_pos h, onOpen]
      constructor
      · intro hmem
        exact hp (List.mem_of_mem_erase hmem)
      · intro hmem
        rcases mem_insertConn _ _ _ hmem with h1 | h1
        · exact hc h1
        · exact hrne h1
    · simp only [if_neg h]
      exact ⟨hp, hc⟩
  | connData q m =>
    cases m with
    | seeds ids =>
      refine ⟨?_, hc⟩
      simp only [step, stepFull, onData, List.mem_append]
      rintro (h | h)
      · exact hp h
      · exact connectToPeers_ne_self _ _ _ h rfl
    | chat lines =>
      refine ⟨?_, hc⟩
      simp only [step, stepFull, onData, List.append_nil]
      exact hp
  | connClose r =>
    refine ⟨hp, ?_⟩
    simp only [step, stepFull, connClosed]
    intro hmem
    exact hc (List.mem_of_mem_erase hmem)
  | localSend newId msg =>
    simp only [step, stepFull]
    by_cases h : ms.core.isLoading <;> simp only [sendMessage, h] <;>
      exact ⟨hp, hc⟩

/-- The peer id is constant along any event trace. -/
theorem runMesh_peerId (evs : List Event) :
    ∀ ms : MeshState, (runMesh ms evs).core.peerId = ms.core.peerId := by
  induction evs with
  | nil => intro ms; rfl
  | cons e evs ih =>
    intro ms
    show (runMesh (step ms e) evs).core.peerId = _
    rw [ih (step ms e), step_peerId]

/-- The no-self invariant holds along any event trace whose inbound
connections respect the transport's id uniqueness. -/
theorem runMesh_noSelf (evs : List Event) :
    ∀ ms : MeshState, NoSelf ms →
      (∀ e ∈ evs, eventOk ms.core.peerId e = true) →
      NoSelf (runMesh ms evs) := by
  induction evs with
  | nil => intro ms h _; exact h
  | cons e evs ih =>
    intro ms h hok
    show NoSelf (runMesh (step ms e) evs)
    refine ih (step ms e) (step_noSelf ms e h (hok e (by simp))) ?_
    intro e' he'
    rw [step_peerId]
    exact hok e' (List.mem_cons_of_mem _ he')

/-- C6: in every state reachable from a freshly constructed peer by any
trace of transport events — provided no inbound connection carries the
local id itself, which the transport's unique registration guarantees —
the connection set does not contain the local identity, even when that
identity appears in received seeds messages or connection metadata (those
paths are guarded inside `connectToPeer`). -/
theorem c6_no_self_connection (pid : String) (uname : Option String)
    (evs : List Event) (hok : ∀ e ∈ evs, eventOk pid e = true) :
    pid ∉ (runMesh (initMesh pid uname) evs).core.connections := by
  have hinv : NoSelf (runMesh (initMesh pid uname) evs) :=
    runMesh_noSelf evs (initMesh pid uname)
      ⟨List.not_mem_nil _, List.not_mem_nil _⟩ hok
  have hpid : (runMesh (initMesh pid uname) evs).core.peerId = pid :=
    runMesh_peerId evs (initMesh pid uname)
  intro hmem
  refine hinv.2 ?_
  rw [hpid]
  exact hmem

/-- Witness for C6: a trace in which the peer's own id "p" arrives both in
a seeds message and in inbound connection metadata, and a foreign
connection opens; "p" still never enters the connection set. -/
theorem c6_witness :
    "p" ∉ (runMesh (initMesh "p" none)
      [Event.peerOpen, Event.inbound "a" ["p", "b"],
        Event.connOpen "a", Event.connData "a" (Message.seeds ["p"]),
        Event.connOpen "p"]).core.connections :=
  c6_no_self_connection "p" none
    [Event.peerOpen, Event.inbound "a" ["p", "b"],
      Event.connOpen "a", Event.connData "a" (Message.seeds ["p"]),
      Event.connOpen "p"] (by decide)
